import Mathlib

/-!
Verification of the DHCP server implemented in `src/src/main.rs`.

The lease state manager (`DHCPServer::process_discover`,
`DHCPServer::clean_expired_leases`) and the per-packet dispatch of
`DHCPServer::run` are embedded shallowly:

* `Ipv4Addr` becomes a natural number (`ipv4` combines the four octets),
  `SystemTime` becomes a natural-number timestamp passed explicitly,
  `Duration` a number of seconds.
* The `HashMap<[u8; 6], LeaseEntry>` lease table becomes an association
  list `List (Mac × LeaseEntry)`; `HashMap` keys are unique, which here
  is an invariant maintained by the operations (`Inv.keys_nodup`).
  `HashMap` iteration order is unspecified in Rust, so the sweep is
  modelled as iterating the expired entries in table order.
* `Vec::pop` removes the last element of the vector, so the free pool is
  a stack: `List.getLast?` / `List.dropLast` model `pop`, and appending
  models `Vec::push`.
* The UDP socket is the external transport: one iteration of the receive
  loop of `DHCPServer::run` is modelled by `DHCPServer.handle_packet`,
  which returns the successor state together with the datagram the server
  sends (if any).
-/

namespace Dhcp

set_option maxRecDepth 10000

/-- An IPv4 address (`Ipv4Addr`), modelled as its numeric value. -/
abbrev Ip := Nat

/-- A client hardware address: the six bytes of the Rust `[u8; 6]`. -/
abbrev Mac := List Nat

/-- A point in time (`SystemTime`), modelled as seconds since an epoch. -/
abbrev Time := Nat

/-- Numeric value of the dotted quad `a.b.c.d` (`Ipv4Addr::new`). -/
def ipv4 (a b c d : Nat) : Ip := ((a * 256 + b) * 256 + c) * 256 + d

/-- Mirrors `struct LeaseEntry` of `main.rs`. -/
structure LeaseEntry where
  mac_address : Mac
  ip_address : Ip
  lease_expiry : Time
  deriving DecidableEq

/-- Mirrors `struct DHCPServer` of `main.rs`, minus the `UdpSocket`
(transport, external to the core). -/
structure DHCPServer where
  available_pool : List Ip
  leases : List (Mac × LeaseEntry)
  subnet_mask : Ip
  gateway : Ip
  dns_servers : List Ip
  lease_duration : Nat
  deriving DecidableEq

/-- `HashMap::get` on the association-list model of the lease table. -/
def leasesGet : List (Mac × LeaseEntry) → Mac → Option LeaseEntry
  | [], _ => none
  | p :: rest, k => if p.1 = k then some p.2 else leasesGet rest k

/-- `HashMap::remove` on the association-list model of the lease table. -/
def leasesRemove (l : List (Mac × LeaseEntry)) (k : Mac) : List (Mac × LeaseEntry) :=
  l.filter (fun p => decide (p.1 ≠ k))

/-- `HashMap::insert` on the association-list model: any old binding of
the key is dropped and the new binding added. -/
def leasesInsert (l : List (Mac × LeaseEntry)) (k : Mac) (v : LeaseEntry) :
    List (Mac × LeaseEntry) :=
  (k, v) :: leasesRemove l k

/-- Mirrors `DHCPServer::new`: pool `192.168.1.100 ..= 192.168.1.199`
(the Rust loop runs `for i in 100..200`), empty lease table, mask
`255.255.255.0`, gateway `192.168.1.1`, DNS `8.8.8.8`, lease duration
86400 seconds.  The socket setup is transport and omitted. -/
def DHCPServer.new : DHCPServer :=
  { available_pool := (List.range' 100 100).map (fun i => ipv4 192 168 1 i)
    leases := []
    subnet_mask := ipv4 255 255 255 0
    gateway := ipv4 192 168 1 1
    dns_servers := [ipv4 8 8 8 8]
    lease_duration := 86400 }

/-- One iteration of the reclamation loop body of
`DHCPServer::clean_expired_leases`: `self.leases.remove(&mac)` followed by
`self.available_pool.push(ip)`. -/
def sweepStep (srv : DHCPServer) (mi : Mac × Ip) : DHCPServer :=
  { srv with
    leases := leasesRemove srv.leases mi.1
    available_pool := srv.available_pool ++ [mi.2] }

/-- Mirrors `DHCPServer::clean_expired_leases`: collect the `(mac, ip)`
pairs of the entries with `lease_expiry <= now`, then remove each from the
table and push its address onto the pool.  The Rust code reads
`SystemTime::now()`; here `now` is an explicit parameter. -/
def DHCPServer.clean_expired_leases (s : DHCPServer) (now : Time) : DHCPServer :=
  ((s.leases.filter (fun p => decide (p.2.lease_expiry ≤ now))).map
      (fun p => (p.1, p.2.ip_address))).foldl sweepStep s

/-- Mirrors `DHCPServer::process_discover`: first sweep expired leases,
then return the existing lease's address if the client has one, otherwise
`Vec::pop` an address off the free pool (the last element) and record a
fresh lease expiring at `now + lease_duration`.  Returns the offered
address (`None` on pool exhaustion) together with the mutated server. -/
def DHCPServer.process_discover (s0 : DHCPServer) (mac_address : Mac) (now : Time) :
    Option Ip × DHCPServer :=
  let s := s0.clean_expired_leases now
  match leasesGet s.leases mac_address with
  | some lease => (some lease.ip_address, s)
  | none =>
    match s.available_pool.getLast? with
    | some ip =>
        (some ip,
         { s with
           available_pool := s.available_pool.dropLast
           leases := leasesInsert s.leases mac_address
             { mac_address := mac_address
               ip_address := ip
               lease_expiry := now + s.lease_duration } })
    | none => (none, s)

/-- Mirrors `DHCPServer::get_dhcp_message_type`: `Some(packet[0])`, the
first byte of the buffer (the caller guarantees at least 241 bytes, so
indexing cannot fail; on the model, `head?`). -/
def get_dhcp_message_type (packet : List Nat) : Option Nat :=
  packet.head?

/-- Mirrors `DHCPServer::get_mac_address`: bytes 28..34 of the buffer. -/
def get_mac_address (packet : List Nat) : Mac :=
  (packet.drop 28).take 6

/-- Mirrors the buffer built by `DHCPServer::send_offer`:
`vec![0u8; 300]` with no field ever filled in. -/
def offer_packet_bytes : List Nat := List.replicate 300 0

/-- Mirrors the buffer built by `DHCPServer::send_ack`:
`vec![0u8; 300]` with no field ever filled in. -/
def ack_packet_bytes : List Nat := List.replicate 300 0

/-- The observable outcome of one iteration of `DHCPServer::run`: either
no datagram is sent, or an offer / ack datagram is sent (recording the mac
the server extracted and the bytes put on the wire). -/
inductive ServerOutput where
  | none
  | offer (mac : Mac) (ip : Ip) (bytes : List Nat)
  | ack (mac : Mac) (bytes : List Nat)
  deriving DecidableEq

/-- One iteration of the receive loop of `DHCPServer::run` on a received
datagram `pkt` (the `size` received is the length of `pkt`): datagrams of
fewer than 241 bytes are skipped; otherwise the message type is byte 0 and
dispatch sends an offer on type 1 (unless the pool is exhausted), an ack
on type 3, and nothing on any other type. -/
def DHCPServer.handle_packet (s : DHCPServer) (pkt : List Nat) (now : Time) :
    DHCPServer × ServerOutput :=
  if pkt.length < 241 then (s, ServerOutput.none)
  else
    match get_dhcp_message_type pkt with
    | Option.none => (s, ServerOutput.none)
    | some t =>
      let mac := get_mac_address pkt
      match t with
      | 1 =>
        match s.process_discover mac now with
        | (some offer_ip, s1) => (s1, ServerOutput.offer mac offer_ip offer_packet_bytes)
        | (Option.none, s1) => (s1, ServerOutput.none)
      | 3 => (s, ServerOutput.ack mac ack_packet_bytes)
      | _ => (s, ServerOutput.none)

/-- The addresses referenced by the lease table, one per entry. -/
def leaseIps (l : List (Mac × LeaseEntry)) : List Ip :=
  l.map (fun p => p.2.ip_address)

/-- The configured address range: exactly the pool `DHCPServer::new`
builds, `192.168.1.100 ..= 192.168.1.199`. -/
def configuredRange : List Ip := DHCPServer.new.available_pool

/-- The pool-exclusivity invariant of the server state: lease-table keys
are unique (the `HashMap` guarantee), the pool has no duplicates, no two
lease entries share an address, no address is both pooled and leased, and
an address is in the configured range exactly when it is pooled or
leased. -/
structure Inv (s : DHCPServer) : Prop where
  keys_nodup : (s.leases.map Prod.fst).Nodup
  pool_nodup : s.available_pool.Nodup
  ips_nodup : (leaseIps s.leases).Nodup
  disj : ∀ ip ∈ s.available_pool, ip ∉ leaseIps s.leases
  range_iff : ∀ ip, ip ∈ configuredRange ↔ (ip ∈ s.available_pool ∨ ip ∈ leaseIps s.leases)

/-- States reachable from the freshly constructed server by the state
mutating operations of the program: discover processing, expiry sweeps,
and whole received datagrams. -/
inductive Reachable : DHCPServer → Prop where
  | init : Reachable DHCPServer.new
  | discover (s : DHCPServer) (mac : Mac) (now : Time) :
      Reachable s → Reachable (s.process_discover mac now).2
  | sweep (s : DHCPServer) (now : Time) :
      Reachable s → Reachable (s.clean_expired_leases now)
  | handle (s : DHCPServer) (pkt : List Nat) (now : Time) :
      Reachable s → Reachable (s.handle_packet pkt now).1

/-- Example client hardware address `AA:BB:CC:DD:EE:01`. -/
def macA : Mac := [170, 187, 204, 221, 238, 1]

/-- Example client hardware address `AA:BB:CC:DD:EE:02`. -/
def macB : Mac := [170, 187, 204, 221, 238, 2]

/-- A 241-byte datagram whose first byte is 3, so that the dispatcher takes
the type-3 (REQUEST) branch; every other byte is zero, and the server holds
no lease for the client hardware address it carries (all zero). -/
def reqNoLeasePacket : List Nat := 3 :: List.replicate 240 0

/-- A 241-byte datagram dispatched as a REQUEST (first byte 3), used to
exercise the frame condition of the type-3 branch. -/
def pkt9 : List Nat := 3 :: List.replicate 240 0

/-- A 244-byte DHCP REQUEST that is well formed per the wire format: BOOTP
`op` = 1 (BOOTREQUEST), the magic cookie `99.130.83.99` at offset 236, and
an options area carrying the message-type option `(53, 1, 3)` (REQUEST)
followed by the end tag 255. -/
def validRequestPacket : List Nat :=
  1 :: (List.replicate 235 0 ++ ([99, 130, 83, 99] ++ [53, 1, 3, 255]))

/-- A 244-byte datagram with `op` = 1, the magic cookie, and an options
area that carries no message-type option at all (only the end tag). -/
def noTypeOptionPacket : List Nat :=
  1 :: (List.replicate 235 0 ++ ([99, 130, 83, 99] ++ [255, 0, 0, 0]))

/-- A 241-byte REQUEST-dispatched datagram with a distinctive transaction
id `0xDEADBEEF` in bytes 4..8 and hardware address `[1,2,3,4,5,6]` in bytes
28..34, used to show the encoded response echoes neither. -/
def requestXidPacket : List Nat :=
  [3, 0, 0, 0, 222, 173, 190, 239] ++ List.replicate 20 0
    ++ [1, 2, 3, 4, 5, 6] ++ List.replicate 207 0

/-- Example client used in the idempotence witness. -/
def m5 : Mac := [1, 2, 3, 4, 5, 6]

/-- Server state after client `m5` was offered an address at time 0. -/
def s5 : DHCPServer := (DHCPServer.new.process_discover m5 0).2

/-- The lease entry `s5` holds for `m5`. -/
def e5 : LeaseEntry :=
  { mac_address := m5, ip_address := ipv4 192 168 1 199, lease_expiry := 86400 }

/-- Example client holding the expired lease in the sweep witness. -/
def m7a : Mac := [7, 7, 7, 7, 7, 7]

/-- Example second client in the sweep witness. -/
def m7b : Mac := [8, 8, 8, 8, 8, 8]

/-- The lease held by `m7a`, expiring at time 3. -/
def e7 : LeaseEntry :=
  { mac_address := m7a, ip_address := ipv4 10 0 0 7, lease_expiry := 3 }

/-- A small server state whose only lease (for `m7a`) is expired at the
witness time 5, with one other address in the pool. -/
def s7 : DHCPServer :=
  { available_pool := [ipv4 10 0 0 1]
    leases := [(m7a, e7)]
    subnet_mask := ipv4 255 255 255 0
    gateway := ipv4 10 0 0 254
    dns_servers := []
    lease_duration := 100 }

/-- Example client used in the no-refresh witness. -/
def m10a : Mac := [10, 0, 0, 0, 0, 1]

/-- Example second client used in the no-refresh witness. -/
def m10b : Mac := [10, 0, 0, 0, 0, 2]

/-- Server state after client `m10a` was offered an address at time 0. -/
def s10 : DHCPServer := (DHCPServer.new.process_discover m10a 0).2

/-- The lease entry `s10` holds for `m10a`. -/
def e10 : LeaseEntry :=
  { mac_address := m10a, ip_address := ipv4 192 168 1 199, lease_expiry := 86400 }

theorem leasesGet_eq_none_iff (l : List (Mac × LeaseEntry)) (k : Mac) :
    leasesGet l k = Option.none ↔ k ∉ l.map Prod.fst := by
  induction l with
  | nil => simp [leasesGet]
  | cons p l ih =>
    by_cases h : p.1 = k
    · subst h
      simp [leasesGet]
    · rw [leasesGet, if_neg h, ih, List.map_cons]
      constructor
      · intro hk hm
        rcases List.mem_cons.mp hm with h1 | h2
        · exact h h1.symm
        · exact hk h2
      · intro hk hm
        exact hk (List.mem_cons_of_mem _ hm)

theorem leasesGet_filter (P : Mac × LeaseEntry → Bool) (l : List (Mac × LeaseEntry))
    (k : Mac) (e : LeaseEntry) (hnd : (l.map Prod.fst).Nodup)
    (h : leasesGet l k = some e) :
    leasesGet (l.filter P) k = if P (k, e) then some e else Option.none := by
  induction l with
  | nil => simp [leasesGet] at h
  | cons p l ih =>
    rw [List.map_cons, List.nodup_cons] at hnd
    by_cases hk : p.1 = k
    · have hpe : p.2 = e := by
        rw [leasesGet, if_pos hk] at h
        exact Option.some.inj h
      have hp : p = (k, e) := by
        rcases p with ⟨p1, p2⟩
        simp only at hk hpe
        rw [hk, hpe]
      subst hp
      by_cases hP : P (k, e)
      · rw [List.filter_cons_of_pos hP, leasesGet, if_pos rfl, if_pos hP]
      · rw [List.filter_cons_of_neg hP, if_neg hP, leasesGet_eq_none_iff]
        intro hmem
        rcases List.mem_map.mp hmem with ⟨q, hq, hq1⟩
        exact hnd.1 (List.mem_map.mpr ⟨q, List.mem_of_mem_filter hq, hq1⟩)
    · rw [leasesGet, if_neg hk] at h
      have htail := ih hnd.2 h
      rw [List.filter_cons]
      by_cases hP : P p
      · rw [if_pos hP, leasesGet, if_neg hk]
        exact htail
      · rw [if_neg hP]
        exact htail

theorem foldl_sweepStep_pool (es : List (Mac × Ip)) (s : DHCPServer) :
    (es.foldl sweepStep s).available_pool = s.available_pool ++ es.map Prod.snd := by
  induction es generalizing s with
  | nil => simp
  | cons mi es ih => simp [List.foldl_cons, ih, sweepStep, List.append_assoc]

theorem foldl_sweepStep_leases (es : List (Mac × Ip)) (s : DHCPServer) :
    (es.foldl sweepStep s).leases
      = es.foldl (fun l mi => leasesRemove l mi.1) s.leases := by
  induction es generalizing s with
  | nil => simp
  | cons mi es ih => simp [List.foldl_cons, ih, sweepStep]

theorem foldl_remove_eq_filter (es : List (Mac × Ip)) (l : List (Mac × LeaseEntry)) :
    es.foldl (fun l mi => leasesRemove l mi.1) l
      = l.filter (fun p => decide (p.1 ∉ es.map Prod.fst)) := by
  induction es generalizing l with
  | nil =>
    simp only [List.foldl_nil, List.map_nil]
    refine ((List.filter_eq_self.mpr ?_).symm)
    intro a _
    simp
  | cons mi es ih =>
    simp only [List.foldl_cons, List.map_cons]
    rw [ih, leasesRemove, List.filter_filter]
    apply List.filter_congr
    intro p _
    by_cases h1 : p.1 = mi.1 <;> by_cases h2 : p.1 ∈ es.map Prod.fst <;>
      simp [h1, h2]

theorem clean_pool_eq (s : DHCPServer) (now : Time) :
    (s.clean_expired_leases now).available_pool
      = s.available_pool
        ++ (s.leases.filter (fun p => decide (p.2.lease_expiry ≤ now))).map
             (fun p => p.2.ip_address) := by
  rw [DHCPServer.clean_expired_leases, foldl_sweepStep_pool, List.map_map]
  rfl

theorem clean_leases_eq (s : DHCPServer) (now : Time)
    (hnd : (s.leases.map Prod.fst).Nodup) :
    (s.clean_expired_leases now).leases
      = s.leases.filter (fun p => decide (now < p.2.lease_expiry)) := by
  rw [DHCPServer.clean_expired_leases, foldl_sweepStep_leases, foldl_remove_eq_filter]
  apply List.filter_congr
  intro p hp
  rw [decide_eq_decide]
  constructor
  · intro hnm
    by_contra hlt
    rw [Nat.not_lt] at hlt
    apply hnm
    exact List.mem_map.mpr
      ⟨(p.1, p.2.ip_address),
       List.mem_map.mpr ⟨p, List.mem_filter.mpr ⟨hp, by simpa using hlt⟩, rfl⟩, rfl⟩
  · intro hlt hmem
    rcases List.mem_map.mp hmem with ⟨q', hq', hfst⟩
    rcases List.mem_map.mp hq' with ⟨q, hqf, rfl⟩
    have hq := List.mem_of_mem_filter hqf
    have hle : q.2.lease_expiry ≤ now := by
      have h2 := (List.mem_filter.mp hqf).2
      simpa using h2
    have hqp : q = p := List.inj_on_of_nodup_map hnd hq hp hfst
    rw [hqp] at hle
    exact absurd hlt (Nat.not_lt.mpr hle)

theorem mem_leaseIps_split (l : List (Mac × LeaseEntry)) (now : Time) (ip : Ip) :
    ip ∈ leaseIps l ↔
      (ip ∈ (l.filter (fun p => decide (p.2.lease_expiry ≤ now))).map
          (fun p => p.2.ip_address)
        ∨ ip ∈ leaseIps (l.filter (fun p => decide (now < p.2.lease_expiry)))) := by
  simp only [leaseIps, List.mem_map, List.mem_filter]
  constructor
  · rintro ⟨p, hp, rfl⟩
    by_cases hle : p.2.lease_expiry ≤ now
    · exact Or.inl ⟨p, ⟨hp, by simpa using hle⟩, rfl⟩
    · exact Or.inr ⟨p, ⟨hp, by simpa using Nat.not_le.mp hle⟩, rfl⟩
  · rintro (⟨p, ⟨hp, _⟩, rfl⟩ | ⟨p, ⟨hp, _⟩, rfl⟩) <;> exact ⟨p, hp, rfl⟩

theorem inv_clean (s : DHCPServer) (now : Time) (h : Inv s) :
    Inv (s.clean_expired_leases now) := by
  have hL := clean_leases_eq s now h.keys_nodup
  have hP := clean_pool_eq s now
  have hexp_sub : List.Sublist
      ((s.leases.filter (fun p => decide (p.2.lease_expiry ≤ now))).map
        (fun p => p.2.ip_address)) (leaseIps s.leases) :=
    List.Sublist.map _ (List.filter_sublist _)
  have hkept_sub : List.Sublist
      (leaseIps ((s.clean_expired_leases now).leases)) (leaseIps s.leases) := by
    rw [hL]
    exact List.Sublist.map _ (List.filter_sublist _)
  constructor
  · rw [hL]
    exact List.Nodup.sublist (List.Sublist.map _ (List.filter_sublist _)) h.keys_nodup
  · rw [hP, List.nodup_append]
    refine ⟨h.pool_nodup, List.Nodup.sublist hexp_sub h.ips_nodup, ?_⟩
    intro a ha hb
    exact h.disj a ha (hexp_sub.subset hb)
  · exact List.Nodup.sublist hkept_sub h.ips_nodup
  · intro ip hip hips
    rw [hP] at hip
    rcases List.mem_append.mp hip with hpool | hexp
    · exact h.disj ip hpool (hkept_sub.subset hips)
    · rw [hL] at hips
      rcases List.mem_map.mp hexp with ⟨q, hqf, rfl⟩
      rcases List.mem_map.mp hips with ⟨r, hrf, hr⟩
      have hq := List.mem_of_mem_filter hqf
      have hr' := List.mem_of_mem_filter hrf
      have hrq : r = q := List.inj_on_of_nodup_map h.ips_nodup hr' hq hr
      subst hrq
      have hx1 : decide (r.2.lease_expiry ≤ now) = true := (List.mem_filter.mp hqf).2
      have hx2 : decide (now < r.2.lease_expiry) = true := (List.mem_filter.mp hrf).2
      simp only [decide_eq_true_eq] at hx1 hx2
      exact absurd hx2 (Nat.not_lt.mpr hx1)
  · intro ip
    rw [h.range_iff ip, hP, hL, List.mem_append,
        mem_leaseIps_split s.leases now ip]
    tauto

theorem pool_decomp (l : List Ip) (x : Ip) (h : l.getLast? = some x) :
    l = l.dropLast ++ [x] :=
  (List.dropLast_append_getLast? x (Option.mem_def.mpr h)).symm

theorem inv_discover (s : DHCPServer) (mac : Mac) (now : Time) (h : Inv s) :
    Inv (s.process_discover mac now).2 := by
  have h1 := inv_clean s now h
  simp only [DHCPServer.process_discover]
  split
  · exact h1
  case h_2 hg =>
    split
    case h_1 ip hp =>
      have hmac : mac ∉ (s.clean_expired_leases now).leases.map Prod.fst :=
        (leasesGet_eq_none_iff _ _).mp hg
      have hrm : leasesRemove (s.clean_expired_leases now).leases mac
          = (s.clean_expired_leases now).leases := by
        rw [leasesRemove]
        apply List.filter_eq_self.mpr
        intro a ha
        simp only [decide_eq_true_eq]
        intro he
        exact hmac (List.mem_map.mpr ⟨a, ha, he⟩)
      have hdecomp := pool_decomp _ _ hp
      have hpn := h1.pool_nodup
      rw [hdecomp, List.nodup_append] at hpn
      have hipmem : ip ∈ (s.clean_expired_leases now).available_pool := by
        rw [hdecomp]
        simp
      have hipnl : ip ∉ leaseIps (s.clean_expired_leases now).leases := h1.disj ip hipmem
      constructor
      · simp only [leasesInsert, hrm, List.map_cons]
        exact List.nodup_cons.mpr ⟨hmac, h1.keys_nodup⟩
      · exact hpn.1
      · simp only [leasesInsert, hrm, leaseIps, List.map_cons]
        refine List.nodup_cons.mpr ⟨?_, ?_⟩
        · simpa [leaseIps] using hipnl
        · simpa [leaseIps] using h1.ips_nodup
      · intro x hx hxl
        simp only [leasesInsert, hrm, leaseIps, List.map_cons, List.mem_cons] at hxl
        rcases hxl with hxl | hxl
        · rw [hxl] at hx
          exact hpn.2.2 hx (by simp)
        · have hxp : x ∈ (s.clean_expired_leases now).available_pool := by
            rw [hdecomp]
            exact List.mem_append.mpr (Or.inl hx)
          exact h1.disj x hxp (by simpa [leaseIps] using hxl)
      · intro y
        rw [h1.range_iff y, hdecomp]
        simp only [leasesInsert, hrm, leaseIps, List.map_cons, List.mem_cons,
          List.mem_append, List.mem_singleton, List.dropLast_concat]
        tauto
    case h_2 hp =>
      exact h1

theorem inv_new : Inv DHCPServer.new := by
  refine ⟨?_, ?_, ?_, ?_, ?_⟩
  · simp [DHCPServer.new]
  · decide
  · simp [DHCPServer.new, leaseIps]
  · intro ip hip
    simp [DHCPServer.new, leaseIps]
  · intro ip
    simp [configuredRange, DHCPServer.new, leaseIps]

theorem handle_state (s : DHCPServer) (pkt : List Nat) (now : Time) :
    (s.handle_packet pkt now).1 = s ∨
    ∃ mac, (s.handle_packet pkt now).1 = (s.process_discover mac now).2 := by
  rw [DHCPServer.handle_packet]
  split
  · exact Or.inl rfl
  · split
    · exact Or.inl rfl
    · split
      · dsimp only
        split
        case h_1 offer_ip s1 heq =>
          refine Or.inr ⟨get_mac_address pkt, ?_⟩
          rw [heq]
        case h_2 s1 heq =>
          refine Or.inr ⟨get_mac_address pkt, ?_⟩
          rw [heq]
      · exact Or.inl rfl
      · exact Or.inl rfl

theorem inv_reachable (s : DHCPServer) (h : Reachable s) : Inv s := by
  induction h with
  | init => exact inv_new
  | discover s mac now _ ih => exact inv_discover s mac now ih
  | sweep s now _ ih => exact inv_clean s now ih
  | handle s pkt now _ ih =>
    rcases handle_state s pkt now with he | ⟨mac, he⟩
    · rw [he]
      exact ih
    · rw [he]
      exact inv_discover s mac now ih

theorem clean_other_fields (s : DHCPServer) (now : Time) :
    (s.clean_expired_leases now).subnet_mask = s.subnet_mask ∧
    (s.clean_expired_leases now).gateway = s.gateway ∧
    (s.clean_expired_leases now).dns_servers = s.dns_servers ∧
    (s.clean_expired_leases now).lease_duration = s.lease_duration := by
  rw [DHCPServer.clean_expired_leases]
  generalize (s.leases.filter fun p => decide (p.2.lease_expiry ≤ now)).map
      (fun p => (p.1, p.2.ip_address)) = es
  induction es generalizing s with
  | nil => simp
  | cons mi es ih => simpa [List.foldl_cons, sweepStep] using ih (sweepStep s mi)

theorem clean_keys_nodup (s : DHCPServer) (now : Time)
    (hnd : (s.leases.map Prod.fst).Nodup) :
    ((s.clean_expired_leases now).leases.map Prod.fst).Nodup := by
  rw [clean_leases_eq s now hnd]
  exact List.Nodup.sublist (List.Sublist.map _ (List.filter_sublist _)) hnd

theorem leasesGet_clean (s : DHCPServer) (now : Time) (mac : Mac) (e : LeaseEntry)
    (hnd : (s.leases.map Prod.fst).Nodup)
    (h : leasesGet s.leases mac = some e) :
    leasesGet (s.clean_expired_leases now).leases mac
      = if now < e.lease_expiry then some e else Option.none := by
  rw [clean_leases_eq s now hnd, leasesGet_filter _ _ _ _ hnd h]
  by_cases hlt : now < e.lease_expiry <;> simp [hlt]

theorem discover_hit (s : DHCPServer) (mac : Mac) (now : Time) (e : LeaseEntry)
    (h : leasesGet (s.clean_expired_leases now).leases mac = some e) :
    s.process_discover mac now = (some e.ip_address, s.clean_expired_leases now) := by
  simp only [DHCPServer.process_discover, h]

theorem discover_existing (s : DHCPServer) (mac : Mac) (now : Time) (e : LeaseEntry)
    (hnd : (s.leases.map Prod.fst).Nodup)
    (hget : leasesGet s.leases mac = some e)
    (hfresh : now < e.lease_expiry) :
    s.process_discover mac now = (some e.ip_address, s.clean_expired_leases now) := by
  apply discover_hit
  rw [leasesGet_clean s now mac e hnd hget, if_pos hfresh]

theorem discover_preserves_other (s : DHCPServer) (mac mac' : Mac) (now : Time)
    (e : LeaseEntry) (hnd : (s.leases.map Prod.fst).Nodup)
    (hget : leasesGet s.leases mac = some e)
    (hfresh : now < e.lease_expiry) :
    leasesGet ((s.process_discover mac' now).2).leases mac = some e := by
  have hnd1 := clean_keys_nodup s now hnd
  have hget1 : leasesGet (s.clean_expired_leases now).leases mac = some e := by
    rw [leasesGet_clean s now mac e hnd hget, if_pos hfresh]
  simp only [DHCPServer.process_discover]
  split
  case h_1 lease hg => exact hget1
  case h_2 hg =>
    split
    case h_1 ip hp =>
      have hne : mac' ≠ mac := by
        intro he
        rw [he, hget1] at hg
        exact Option.noConfusion hg
      simp only [leasesInsert, leasesGet]
      rw [if_neg hne, leasesRemove, leasesGet_filter _ _ _ _ hnd1 hget1,
        if_pos (by simpa using fun he : mac = mac' => hne he.symm)]
    case h_2 hp => exact hget1

theorem discover_after_expiry (s : DHCPServer) (mac mac' : Mac) (e : LeaseEntry)
    (now : Time) (hl : s.leases = [(mac, e)]) (hexp : e.lease_expiry ≤ now)
    (_hne : mac' ≠ mac) :
    (s.process_discover mac' now).1 = some e.ip_address := by
  have hnd : (s.leases.map Prod.fst).Nodup := by
    rw [hl]
    simp
  have hL : (s.clean_expired_leases now).leases = [] := by
    rw [clean_leases_eq s now hnd, hl]
    simp [Nat.not_lt.mpr hexp]
  have hP : (s.clean_expired_leases now).available_pool
      = s.available_pool ++ [e.ip_address] := by
    rw [clean_pool_eq s now, hl]
    simp [hexp]
  simp only [DHCPServer.process_discover, hL, leasesGet, hP, List.getLast?_concat]

/-- C1: the claim says that on a REQUEST whose requested address does not
match the client's lease — in particular for a client with no lease at
all — the dispatcher emits a NAK, never an ACK.  The code has no NAK path
and no confirm step: evaluated on a fresh server (no lease for the client)
and a type-3 datagram, the dispatcher emits an ACK (of 300 zero bytes) and
leaves the state unchanged, exhibiting the always-ACK bug the spec itself
flags as a protocol violation. -/
theorem C1_request_acks_without_lease :
    DHCPServer.new.handle_packet reqNoLeasePacket 0
      = (DHCPServer.new, ServerOutput.ack (List.replicate 6 0) ack_packet_bytes) := by
  decide

/-- C2: in every reachable server state, each address of the configured
range is in the free pool or referenced by a lease-table entry exactly
once in total — never both, never twice. -/
theorem C2_pool_lease_exclusivity (s : DHCPServer) (h : Reachable s) (ip : Ip)
    (hip : ip ∈ configuredRange) :
    s.available_pool.count ip + (leaseIps s.leases).count ip = 1 := by
  have hInv := inv_reachable s h
  rcases (hInv.range_iff ip).mp hip with hp | hl
  · rw [List.count_eq_one_of_mem hInv.pool_nodup hp,
      List.count_eq_zero.mpr (hInv.disj ip hp)]
  · have hnp : ip ∉ s.available_pool := fun hp => hInv.disj ip hp hl
    rw [List.count_eq_zero.mpr hnp, List.count_eq_one_of_mem hInv.ips_nodup hl]

/-- Witness for C2 at the initial state and the address 192.168.1.100. -/
theorem C2_pool_lease_exclusivity_witness :
    DHCPServer.new.available_pool.count (ipv4 192 168 1 100)
      + (leaseIps DHCPServer.new.leases).count (ipv4 192 168 1 100) = 1 :=
  C2_pool_lease_exclusivity DHCPServer.new Reachable.init (ipv4 192 168 1 100)
    (by decide)

/-- C3: the claim says decode parses the options area as (tag, length,
value) triplets and takes the message type from option 53, failing with
MissingMessageType when it is absent.  The code instead returns the first
byte of the buffer (the BOOTP op field): on a well-formed REQUEST whose
option 53 carries 3 it yields 1, and on a packet carrying no option 53 at
all it still succeeds with 1 instead of failing. -/
theorem C3_message_type_not_parsed :
    get_dhcp_message_type validRequestPacket = some 1
      ∧ get_dhcp_message_type validRequestPacket ≠ some 3
      ∧ get_dhcp_message_type noTypeOptionPacket = some 1 := by
  refine ⟨rfl, by decide, rfl⟩

/-- C4 counterexample: the claim says the first DISCOVER from a new client
on the freshly configured pool is offered 192.168.1.100 (lowest-first).
The pool is a `Vec` popped from the back, so the first offer is not
192.168.1.100. -/
theorem C4_first_offer_not_lowest :
    (DHCPServer.new.process_discover macA 0).1 ≠ some (ipv4 192 168 1 100) := by
  decide

/-- C4 (amended): allocation is deterministic highest-available-first
(LIFO on the pool vector): the first DISCOVER is offered 192.168.1.199 and
a second distinct client is next offered 192.168.1.198. -/
theorem C4_highest_first :
    (DHCPServer.new.process_discover macA 0).1 = some (ipv4 192 168 1 199)
      ∧ (((DHCPServer.new.process_discover macA 0).2).process_discover macB 2).1
        = some (ipv4 192 168 1 198) := by
  constructor <;> decide

/-- C5: allocate is idempotent per client: when the client already holds
an unexpired lease, process_discover returns that lease's address and the
resulting state is exactly the post-sweep state — no pool pop, no second
address. -/
theorem C5_discover_idempotent (s : DHCPServer) (mac : Mac) (now : Time)
    (e : LeaseEntry) (hnd : (s.leases.map Prod.fst).Nodup)
    (hget : leasesGet s.leases mac = some e)
    (hfresh : now < e.lease_expiry) :
    s.process_discover mac now = (some e.ip_address, s.clean_expired_leases now) :=
  discover_existing s mac now e hnd hget hfresh

/-- Witness for C5: client m5 re-discovers at time 1 after being offered
192.168.1.199 at time 0 and gets the same address back. -/
theorem C5_discover_idempotent_witness :
    leasesGet s5.leases m5 = some e5
      ∧ s5.process_discover m5 1 = (some e5.ip_address, s5.clean_expired_leases 1) :=
  ⟨by decide, C5_discover_idempotent s5 m5 1 e5 (by decide) (by decide) (by decide)⟩

/-- C6: the claim says encode copies the request's transaction id and
hardware address into the response and appends the full options list
ending in 255; consequently encode∘decode preserves type, xid and chaddr.
The code sends `vec![0u8; 300]` with every field left zero: the response
to a REQUEST carrying xid 0xDEADBEEF and chaddr [1,2,3,4,5,6] is 300 zero
bytes — its xid bytes differ from the request's and it contains no end
marker (255) anywhere, so nothing is preserved. -/
theorem C6_response_is_zero_filled :
    (DHCPServer.new.handle_packet requestXidPacket 0).2
        = ServerOutput.ack [1, 2, 3, 4, 5, 6] ack_packet_bytes
      ∧ ack_packet_bytes = List.replicate 300 0
      ∧ (ack_packet_bytes.drop 4).take 4 ≠ (requestXidPacket.drop 4).take 4
      ∧ (255 : Nat) ∉ ack_packet_bytes := by
  refine ⟨by decide, rfl, by decide, by decide⟩

/-- C7: the sweep removes exactly the entries with expiry ≤ now and pushes
each removed entry's address back into the pool; and because allocate
sweeps on entry, a client distinct from the holder of an expired lease can
be allocated that lease's address in a single process_discover call. -/
theorem C7_sweep_reclaims :
    (∀ (s : DHCPServer) (now : Time), (s.leases.map Prod.fst).Nodup →
      (s.clean_expired_leases now).leases
          = s.leases.filter (fun p => decide (now < p.2.lease_expiry))
        ∧ (s.clean_expired_leases now).available_pool
          = s.available_pool
            ++ (s.leases.filter (fun p => decide (p.2.lease_expiry ≤ now))).map
                 (fun p => p.2.ip_address))
      ∧ (∀ (s : DHCPServer) (mac mac' : Mac) (e : LeaseEntry) (now : Time),
        s.leases = [(mac, e)] → e.lease_expiry ≤ now → mac' ≠ mac →
        (s.process_discover mac' now).1 = some e.ip_address) :=
  ⟨fun s now hnd => ⟨clean_leases_eq s now hnd, clean_pool_eq s now⟩,
   fun s mac mac' e now hl hexp hne => discover_after_expiry s mac mac' e now hl hexp hne⟩

/-- Witness for C7: in state s7 the lease of m7a expired at 3; at time 5 a
DISCOVER from m7b is offered m7a's old address; and the sweep equations
hold on s7. -/
theorem C7_sweep_reclaims_witness :
    (s7.clean_expired_leases 5).leases
        = s7.leases.filter (fun p => decide ((5 : Nat) < p.2.lease_expiry))
      ∧ (s7.process_discover m7b 5).1 = some e7.ip_address :=
  ⟨(C7_sweep_reclaims.1 s7 5 (by decide)).1,
   C7_sweep_reclaims.2 s7 m7a m7b e7 5 rfl (by decide) (by decide)⟩

/-- C8 counterexample: the claim says a buffer of exactly 240 bytes passes
the length check.  A 240-byte DISCOVER-typed datagram is dropped with no
response and no state change (had it passed the length check it would have
produced an offer, as the 241-byte variant does). -/
theorem C8_240_byte_dropped :
    DHCPServer.new.handle_packet (1 :: List.replicate 239 0) 0
        = (DHCPServer.new, ServerOutput.none)
      ∧ ((1 : Nat) :: List.replicate 239 0).length = 240 := by
  constructor <;> decide

/-- C8 (amended): the dispatcher's well-formedness threshold is 241 bytes:
every buffer shorter than 241 bytes is dropped with no response and no
state change, while a 241-byte buffer passes the length check (a 241-byte
DISCOVER reaches allocation and is answered with an offer). -/
theorem C8_length_check_at_241 :
    (∀ (s : DHCPServer) (pkt : List Nat) (now : Time),
      pkt.length < 241 → s.handle_packet pkt now = (s, ServerOutput.none))
      ∧ (DHCPServer.new.handle_packet (1 :: List.replicate 240 0) 0).2
        = ServerOutput.offer (List.replicate 6 0) (ipv4 192 168 1 199)
            offer_packet_bytes := by
  constructor
  · intro s pkt now h
    rw [DHCPServer.handle_packet, if_pos h]
  · decide

/-- Witness for C8 (amended) on the empty datagram. -/
theorem C8_length_check_at_241_witness :
    DHCPServer.new.handle_packet [] 0 = (DHCPServer.new, ServerOutput.none) :=
  C8_length_check_at_241.1 DHCPServer.new [] 0 (by decide)

/-- C9: the type-3 (REQUEST) branch of the dispatcher neither reads nor
mutates the lease table or the pool: for every packet taking that branch
the state is returned unchanged and the ack sent is a constant independent
of the leases. -/
theorem C9_request_branch_pure (s : DHCPServer) (pkt : List Nat) (now : Time)
    (hlen : ¬ pkt.length < 241) (hty : get_dhcp_message_type pkt = some 3) :
    s.handle_packet pkt now
      = (s, ServerOutput.ack (get_mac_address pkt) ack_packet_bytes) := by
  rw [DHCPServer.handle_packet, if_neg hlen]
  simp only [hty]

/-- Witness for C9 on a concrete 241-byte type-3 datagram and the initial
state. -/
theorem C9_request_branch_pure_witness :
    DHCPServer.new.handle_packet pkt9 0
      = (DHCPServer.new, ServerOutput.ack (get_mac_address pkt9) ack_packet_bytes) :=
  C9_request_branch_pure DHCPServer.new pkt9 0 (by decide) (by decide)

/-- C10: a repeated DISCOVER never refreshes a lease: for a client with an
unexpired lease, process_discover returns the existing address, the state
is exactly the post-sweep state, and the client's entry — expiry
included — is unchanged; moreover a discover by any client (the holder or
another) leaves every unexpired entry of the table, expiry included,
exactly as it was, so no operation extends a lease after creation. -/
theorem C10_discover_never_refreshes :
    (∀ (s : DHCPServer) (mac : Mac) (now : Time) (e : LeaseEntry),
      (s.leases.map Prod.fst).Nodup → leasesGet s.leases mac = some e →
      now < e.lease_expiry →
      s.process_discover mac now = (some e.ip_address, s.clean_expired_leases now)
        ∧ leasesGet (s.clean_expired_leases now).leases mac = some e)
      ∧ (∀ (s : DHCPServer) (mac mac' : Mac) (now : Time) (e : LeaseEntry),
        (s.leases.map Prod.fst).Nodup → leasesGet s.leases mac = some e →
        now < e.lease_expiry →
        leasesGet ((s.process_discover mac' now).2).leases mac = some e) :=
  ⟨fun s mac now e hnd hget hfresh =>
    ⟨discover_existing s mac now e hnd hget hfresh,
     by rw [leasesGet_clean s now mac e hnd hget, if_pos hfresh]⟩,
   fun s mac mac' now e hnd hget hfresh =>
    discover_preserves_other s mac mac' now e hnd hget hfresh⟩

/-- Witness for C10: after m10b's DISCOVER at time 1, m10a's entry (its
expiry 86400 included) is untouched. -/
theorem C10_discover_never_refreshes_witness :
    leasesGet ((s10.process_discover m10b 1).2).leases m10a = some e10 :=
  C10_discover_never_refreshes.2 s10 m10a m10b 1 e10 (by decide) (by decide)
    (by decide)

end Dhcp
